import Mathlib

/-!
Shallow embedding of the scalar type-codec subsystem of
clickhouse_connect/datatypes/standard.py, together with theorems settling
the specification claims about it.

Conventions of the embedding:
* a Python `bytearray` / `bytes` value is a `List Nat` whose entries are
  meant to lie below 256 (stated as a hypothesis where a theorem needs it);
* Python slicing `source[loc:loc+n]` is `(source.drop loc).take n` — like
  the Python slice it silently truncates when the buffer is short and never
  raises;
* Python `int` is `Int` (arbitrary precision), `int.from_bytes` /
  `int.to_bytes` are modelled explicitly below;
* a Python call that can raise is modelled with `Except String`, the
  string naming the exception;
* `datetime` values are modelled by the instant they denote, measured in
  microseconds from the Unix epoch, paired with the attached tzinfo.
-/

/-- Little-endian unsigned interpretation of a byte list:
`int.from_bytes(bs, 'little')`. -/
def natFromBytesLE : List Nat → Nat
  | [] => 0
  | b :: bs => b + 256 * natFromBytesLE bs

/-- Big-endian unsigned interpretation of a byte list:
`int.from_bytes(bs, 'big')`. -/
def natFromBytesBE (bs : List Nat) : Nat :=
  bs.foldl (fun acc b => acc * 256 + b) 0

/-- Little-endian serialization of `v` into exactly `size` bytes
(the truncating core of `int.to_bytes(size, 'little')`). -/
def natToBytesLE : Nat → Nat → List Nat
  | 0, _ => []
  | size + 1, v => v % 256 :: natToBytesLE size (v / 256)

/-- Model of `int.from_bytes(bs, 'little', signed=s)`: when `s` is set and the top
bit of the highest byte is one, the two's-complement value is returned. -/
def int_from_bytes_le (signed : Bool) (bs : List Nat) : Int :=
  let u := natFromBytesLE bs
  if signed && decide (2 ^ (8 * bs.length) ≤ 2 * u) then
    (u : Int) - 2 ^ (8 * bs.length)
  else
    (u : Int)

/-- The values `int.to_bytes(size, 'little', signed=signed)` accepts
without raising OverflowError. -/
def intRepresentable (size : Nat) (signed : Bool) (v : Int) : Bool :=
  if signed then
    decide (-((2 : Int) ^ (8 * size - 1)) ≤ v) && decide (v < 2 ^ (8 * size - 1))
  else
    decide (0 ≤ v) && decide (v < 2 ^ (8 * size))

/-- Model of `value.to_bytes(size, 'little', signed=signed)`: the two's-complement
little-endian bytes for representable values, OverflowError otherwise. -/
def intToBytesLE (size : Nat) (signed : Bool) (v : Int) : Except String (List Nat) :=
  if intRepresentable size signed v then
    Except.ok (natToBytesLE size ((v % ((2 : Int) ^ (8 * size))).toNat))
  else
    Except.error "OverflowError"

/-- Model of `Int._from_row_binary` (also `UInt` via `signed := false`): reads
`size` bytes at `loc` and returns `(value, loc + size)`.  The slice
truncates silently on a short buffer, exactly like the Python source. -/
def int_from_row_binary (size : Nat) (signed : Bool) (source : List Nat) (loc : Nat) :
    Int × Nat :=
  (int_from_bytes_le signed ((source.drop loc).take size), loc + size)

/-- Model of `Int._to_row_binary` (also `UInt`): appends the little-endian bytes of
`value` to `dest`; propagates the OverflowError of `to_bytes` for
unrepresentable values. -/
def int_to_row_binary (size : Nat) (signed : Bool) (value : Int) (dest : List Nat) :
    Except String (List Nat) :=
  (intToBytesLE size signed value).map (fun bs => dest ++ bs)

/-- Default of the class attribute `UInt64.signed` (`signed = False`). -/
def uint64_signed_default : Bool := false

/-- Model of `str.lower()`, modelled per character in the ASCII range, which
agrees with Python lowercasing on every comparison against an ASCII
literal such as "signed". -/
def pyLower (s : String) : String :=
  String.mk (s.toList.map Char.toLower)

/-- Model of `uint64_handling(method)`: the new value of the class attribute
`UInt64.signed`, namely `method.lower() == 'signed'`. -/
def uint64_handling (method : String) : Bool :=
  pyLower method == "signed"

/-- Model of `UInt64._from_row_binary`: reads 8 bytes little-endian, with the
signedness taken from the class attribute (the global policy) at decode
time — a `UInt64` instance holds no per-instance signedness state. -/
def uint64_from_row_binary (signed : Bool) (source : List Nat) (loc : Nat) :
    Int × Nat :=
  (int_from_bytes_le signed ((source.drop loc).take 8), loc + 8)

/-- Model of `UInt64._to_row_binary`: 8 little-endian bytes, signedness from the
global policy at encode time. -/
def uint64_to_row_binary (signed : Bool) (value : Int) (dest : List Nat) :
    Except String (List Nat) :=
  (intToBytesLE 8 signed value).map (fun bs => dest ++ bs)

/-- One constructor argument of a parsed type name: the registry's parser
produces numbers (precision, scale, fixed length) and quoted strings
(timezone names). -/
inductive TDValue where
  | num (v : Nat)
  | txt (v : String)
deriving DecidableEq, Repr

/-- Model of `TypeDef`: the immutable descriptor handed to every codec
constructor. -/
structure TypeDef where
  size : Nat := 0
  values : List TDValue := []
  arg_str : String := ""
deriving DecidableEq, Repr

/-- The state a `Decimal` codec derives from its TypeDef: `size` in bytes
and `prec` (which the decoder uses as the scale, exactly as the source
stores it). -/
structure DecimalCodec where
  size : Nat
  prec : Nat
deriving DecidableEq, Repr

/-- Model of `Decimal.__init__`: when the TypeDef does not fix a width, checks the
precision (raising for precision outside 1..79) and picks the backing
width by precision tier; when the TypeDef fixes a width, takes the scale
from the first value with no range check.  Missing values raise
IndexError. -/
def decimal_init (td : TypeDef) : Except String DecimalCodec :=
  if td.size == 0 then
    match td.values with
    | TDValue.num prec :: TDValue.num scale :: _ =>
      if prec < 1 || prec > 79 then
        Except.error "ArithmeticError: Invalid precision for ClickHouse Decimal type"
      else
        let size := if prec < 10 then 32 else if prec < 19 then 64
          else if prec < 39 then 128 else 256
        Except.ok { size := size / 8, prec := scale }
    | _ => Except.error "IndexError"
  else
    match td.values with
    | TDValue.num scale :: _ => Except.ok { size := td.size / 8, prec := scale }
    | _ => Except.error "IndexError"

/-- Model of `Decimal._from_row_binary`, up to the final `decimal.Decimal(...)`
parse: we return the literal string the source builds, since the Python
`decimal.Decimal` constructor preserves that literal's sign and value
exactly.  Note the source reads the integer UNSIGNED (`int.from_bytes`
without `signed=True`) and tests `unscaled <= 0`, so the branch `neg`
fires exactly on the all-zero buffer.  Python slice semantics for
`digits[:-prec]` / `digits[-prec:]` at `prec = 0` give the empty string
and the whole string respectively, hence the explicit zero case. -/
def decimal_from_row_binary (c : DecimalCodec) (source : List Nat) (loc : Nat) :
    String × Nat :=
  let unscaled : Nat := natFromBytesLE ((source.drop loc).take c.size)
  let neg : String := if unscaled ≤ 0 then "-" else ""
  let ds : List Char := Nat.toDigits 10 unscaled
  let intPart : List Char := if c.prec == 0 then [] else ds.take (ds.length - c.prec)
  let fracPart : List Char := if c.prec == 0 then ds else ds.drop (ds.length - c.prec)
  (neg ++ String.mk intPart ++ "." ++ String.mk fracPart, loc + c.size)

/-- A tzinfo value: `timezone.utc` or a `pytz` zone with the given name. -/
inductive Tz where
  | utc
  | named (zone : String)
deriving DecidableEq, Repr

/-- State a `DateTime64` codec derives from its TypeDef. -/
structure DateTime64Codec where
  prec : Nat
  tzinfo : Tz
deriving DecidableEq, Repr

/-- Model of `DateTime64.__init__`: `prec = 10 ** values[0]`; the optional second
value is a quoted timezone name, whose quotes `[1:-1]` strips. -/
def datetime64_init (scale : Nat) (tzv : Option String) : DateTime64Codec :=
  { prec := 10 ^ scale
    tzinfo := match tzv with
      | none => Tz.utc
      | some s => Tz.named (String.mk ((s.toList.drop 1).dropLast)) }

/-- An aware Python `datetime`, modelled by the instant it denotes
(microseconds from the Unix epoch) plus the attached tzinfo. -/
structure PyDateTime where
  us : Int
  tz : Tz
deriving DecidableEq, Repr

/-- Model of `DateTime64._from_row_binary`: 8 bytes little-endian signed ticks;
`seconds = ticks // prec` with Python floor division (`Int.fdiv`), the
remainder scaled to microseconds, again with floor division; the result
is `datetime.fromtimestamp(seconds, tzinfo) + timedelta(microseconds)`,
i.e. the instant `seconds * 10^6 + microseconds`. -/
def datetime64_from_row_binary (c : DateTime64Codec) (source : List Nat) (loc : Nat) :
    PyDateTime × Nat :=
  let ticks := int_from_bytes_le true ((source.drop loc).take 8)
  let seconds := Int.fdiv ticks (c.prec : Int)
  let microseconds := Int.fdiv ((ticks - seconds * (c.prec : Int)) * 1000000) (c.prec : Int)
  ({ us := seconds * 1000000 + microseconds, tz := c.tzinfo }, loc + 8)

/-- Strict UTF-8 decoding of a byte list, as Python `bytes.decode('utf8')`:
rejects invalid start bytes, truncated sequences, overlong forms,
surrogates and code points above U+10FFFF. -/
def utf8DecodeList : List Nat → Option (List Char)
  | [] => some []
  | b :: rest =>
    if b < 0x80 then
      (utf8DecodeList rest).map (fun cs => Char.ofNat b :: cs)
    else if b < 0xC2 then none
    else if b < 0xE0 then
      match rest with
      | c1 :: rest2 =>
        if 0x80 ≤ c1 ∧ c1 < 0xC0 then
          (utf8DecodeList rest2).map
            (fun cs => Char.ofNat ((b - 0xC0) * 64 + (c1 - 0x80)) :: cs)
        else none
      | [] => none
    else if b < 0xF0 then
      match rest with
      | c1 :: c2 :: rest2 =>
        if (0x80 ≤ c1 ∧ c1 < 0xC0) ∧ (0x80 ≤ c2 ∧ c2 < 0xC0)
            ∧ ¬(b = 0xE0 ∧ c1 < 0xA0) ∧ ¬(b = 0xED ∧ 0xA0 ≤ c1) then
          (utf8DecodeList rest2).map
            (fun cs =>
              Char.ofNat ((b - 0xE0) * 4096 + (c1 - 0x80) * 64 + (c2 - 0x80)) :: cs)
        else none
      | _ => none
    else if b < 0xF5 then
      match rest with
      | c1 :: c2 :: c3 :: rest2 =>
        if (0x80 ≤ c1 ∧ c1 < 0xC0) ∧ (0x80 ≤ c2 ∧ c2 < 0xC0) ∧ (0x80 ≤ c3 ∧ c3 < 0xC0)
            ∧ ¬(b = 0xF0 ∧ c1 < 0x90) ∧ ¬(b = 0xF4 ∧ 0x90 ≤ c1) then
          (utf8DecodeList rest2).map
            (fun cs =>
              Char.ofNat ((b - 0xF0) * 262144 + (c1 - 0x80) * 4096
                + (c2 - 0x80) * 64 + (c3 - 0x80)) :: cs)
        else none
      | _ => none
    else none

/-- Model of `value.decode('utf8')` as an Option: `none` models the
UnicodeDecodeError. -/
def utf8Decode (bs : List Nat) : Option String :=
  (utf8DecodeList bs).map String.mk

/-- Model of `binascii.hexlify(value).decode('utf8')`: two lowercase hex digits per
byte (entries of a bytearray are below 256). -/
def hexlify (bs : List Nat) : String :=
  String.mk (bs.foldr
    (fun b acc => Nat.digitChar (b / 16 % 16) :: Nat.digitChar (b % 16) :: acc) [])

/-- The text codec lookup is external to this repository (Python stdlib);
only the default utf8 codec, the one the claims exercise, is modelled.
Returns `none` for a UnicodeDecodeError. -/
def codecDecode (encoding : String) (bs : List Nat) : Option String :=
  if encoding == "utf8" then utf8Decode bs else none

/-- Which function is stored in the class attribute
`FixedString._transform`: `_fixed_string_raw`, `_fixed_string_decode` or
`_hex_string` are the only values the source ever assigns. -/
inductive FSTransform where
  | raw
  | decodeTr
  | hexTr
deriving DecidableEq, Repr

/-- Which function is stored in `FixedString._encode_error`:
`_fixed_string_raw` (the default), `_hex_string`, or the placeholder
lambda `lambda cls: '<binary data>'`. -/
inductive FSEncodeError where
  | rawErr
  | hexErr
  | placeholderErr
deriving DecidableEq, Repr

/-- The class-level (process-wide) `FixedString` policy state. -/
structure FixedStringState where
  encoding : String
  transform : FSTransform
  encode_error : FSEncodeError
deriving DecidableEq, Repr

/-- The class-body defaults: `_encoding = 'utf8'`, `_transform` and
`_encode_error` both `_fixed_string_raw`. -/
def defaultFixedStringState : FixedStringState :=
  { encoding := "utf8", transform := FSTransform.raw
    encode_error := FSEncodeError.rawErr }

/-- Model of `fixed_string_handling(method, encoding, encoding_error)`: rebinds the
class attributes; an unrecognized method changes nothing. -/
def fixed_string_handling (method : String) (encoding : String := "utf8")
    (encoding_error : String := "hex") (st : FixedStringState) : FixedStringState :=
  if method == "raw" then
    { st with transform := FSTransform.raw }
  else if method == "decode" then
    { st with
      encoding := encoding
      transform := FSTransform.decodeTr
      encode_error :=
        if encoding_error == "hex" then FSEncodeError.hexErr
        else FSEncodeError.placeholderErr }
  else if method == "hex" then
    { st with transform := FSTransform.hexTr }
  else st

/-- A decoded FixedString value: raw bytes or text, as in Python where the
raw mode returns the bytearray slice and the others return str. -/
inductive FSValue where
  | bytes (bs : List Nat)
  | text (s : String)
deriving DecidableEq, Repr

/-- Calling `cls._encode_error(value)`.  The placeholder variant is the
classmethod `lambda cls: '<binary data>'`, which receives the implicit
`cls` argument AND `value`, one argument more than the lambda accepts, so
the call itself raises TypeError instead of returning the placeholder. -/
def fs_encode_error_apply : FSEncodeError → List Nat → Except String FSValue
  | FSEncodeError.rawErr, v => Except.ok (FSValue.bytes v)
  | FSEncodeError.hexErr, v => Except.ok (FSValue.text (hexlify v))
  | FSEncodeError.placeholderErr, _ =>
    Except.error "TypeError: lambda takes 1 positional argument but 2 were given"

/-- Applying the stored `_transform` to a byte slice, as
`self._transform(source[loc:loc+size])` does — one positional argument.
`_fixed_string_raw` (one parameter) returns the slice unchanged, and
`_fixed_string_decode` (stored as a classmethod, so `cls` is bound)
decodes it in the configured encoding, falling back to
`cls._encode_error(value)` on UnicodeDecodeError.  But direct hex mode
stores `staticmethod(_hex_string)`, and `_hex_string` takes TWO
parameters `(cls, value)`: a staticmethod binds nothing, so the single
argument lands on `cls`, `value` is missing, and the call raises
TypeError — direct hex mode never returns the hex text.  (The hex
FALLBACK works, because `_encode_error = classmethod(_hex_string)` does
bind `cls`; see `fs_encode_error_apply`.) -/
def fs_transform_apply (st : FixedStringState) (v : List Nat) : Except String FSValue :=
  match st.transform with
  | FSTransform.raw => Except.ok (FSValue.bytes v)
  | FSTransform.hexTr =>
    Except.error "TypeError: _hex_string missing 1 required positional argument: value"
  | FSTransform.decodeTr =>
    match codecDecode st.encoding v with
    | some s => Except.ok (FSValue.text s)
    | none => fs_encode_error_apply st.encode_error v

/-- Model of `FixedString._from_row_binary`: slices `size` bytes (truncating
silently when the buffer is short, like the Python slice) and applies the
current class-level transform. -/
def fixed_string_from_row_binary (st : FixedStringState) (size : Nat)
    (source : List Nat) (loc : Nat) : Except String FSValue × Nat :=
  (fs_transform_apply st ((source.drop loc).take size), loc + size)

/-- The argument the source hands to `struct.pack`: a scalar number
(identified by the IEEE-754 bit pattern `struct` would write) or a tuple.
`struct.pack` with format 'f' or 'd' accepts exactly one number; any
other argument — in particular a tuple — raises `struct.error`. -/
inductive StructArg where
  | scalar (bits : Nat)
  | tup (elems : List Nat)
deriving DecidableEq, Repr

/-- Model of `struct.pack(fmt, arg)` for a single little-endian float format of
`width` bytes: writes the bit pattern of a scalar, raises on a tuple. -/
def structPack (width : Nat) : StructArg → Except String (List Nat)
  | StructArg.scalar bits => Except.ok (natToBytesLE width bits)
  | StructArg.tup _ => Except.error "struct.error: required argument is not a float"

/-- Model of `Float32._to_row_binary`: the source executes
`dest += struct.pack('f', (value,))` — the value is wrapped in a 1-tuple,
so the pack call raises `struct.error` for every value.  `valueBits` is
the IEEE-754 pattern of the value (irrelevant, since the tuple branch is
always taken). -/
def float32_to_row_binary (valueBits : Nat) (dest : List Nat) :
    Except String (List Nat) :=
  (structPack 4 (StructArg.tup [valueBits])).map (fun bs => dest ++ bs)

/-- Model of `Float64._to_row_binary`: `dest += struct.pack('d', (value,))`, the
same 1-tuple wrapping with the 8-byte format. -/
def float64_to_row_binary (valueBits : Nat) (dest : List Nat) :
    Except String (List Nat) :=
  (structPack 8 (StructArg.tup [valueBits])).map (fun bs => dest ++ bs)

/-- Model of `str(IPv4Address(n))` for `n < 2^32`: the dotted quad of the
big-endian octets of `n`. -/
def ipv4_addr_string (n : Nat) : String :=
  String.mk (Nat.toDigits 10 (n / 16777216 % 256)) ++ "." ++
    String.mk (Nat.toDigits 10 (n / 65536 % 256)) ++ "." ++
    String.mk (Nat.toDigits 10 (n / 256 % 256)) ++ "." ++
    String.mk (Nat.toDigits 10 (n % 256))

/-- Model of `IPv4._from_row_binary`: 4 bytes read LITTLE-endian, rendered as a
dotted quad. -/
def ipv4_from_row_binary (source : List Nat) (loc : Nat) : String × Nat :=
  (ipv4_addr_string (natFromBytesLE ((source.drop loc).take 4)), loc + 4)

/-- The eight 16-bit groups of a 128-bit value, most significant first. -/
def ipv6_hextets (n : Nat) : List Nat :=
  [n / 2 ^ 112 % 65536, n / 2 ^ 96 % 65536, n / 2 ^ 80 % 65536, n / 2 ^ 64 % 65536,
   n / 2 ^ 48 % 65536, n / 2 ^ 32 % 65536, n / 2 ^ 16 % 65536, n % 65536]

/-- Lowercase hex rendering of one group, Python `'%x'`: no leading
zeros, "0" for zero. -/
def hexStr (n : Nat) : String :=
  String.mk (Nat.toDigits 16 n)

/-- Loop state of the zero-run scan in Python
`ipaddress._IPAddressBase._compress_hextets`. -/
structure RunState where
  bestStart : Int
  bestLen : Nat
  curStart : Int
  curLen : Nat
  idx : Nat
deriving Repr

/-- One iteration of the zero-run scan: extends the current run on a zero
group and records it when it beats the best; resets otherwise. -/
def runStep (st : RunState) (hextet : Nat) : RunState :=
  if hextet == 0 then
    let curStart := if st.curStart == -1 then (st.idx : Int) else st.curStart
    let curLen := st.curLen + 1
    if curLen > st.bestLen then
      { bestStart := curStart, bestLen := curLen, curStart := curStart
        curLen := curLen, idx := st.idx + 1 }
    else
      { st with curStart := curStart, curLen := curLen, idx := st.idx + 1 }
  else
    { st with curStart := -1, curLen := 0, idx := st.idx + 1 }

/-- The start and length of the run of zero groups that `::` will
replace (leftmost longest, as in the Python scan). -/
def bestZeroRun (hs : List Nat) : Int × Nat :=
  let st := hs.foldl runStep
    { bestStart := -1, bestLen := 0, curStart := -1, curLen := 0, idx := 0 }
  (st.bestStart, st.bestLen)

/-- Model of `str(IPv6Address(n))`: hex groups joined with ':', with the leftmost
longest run of at least two zero groups compressed to `::`, following
Python `ipaddress._string_from_ip_int` / `_compress_hextets`. -/
def ipv6_addr_string (n : Nat) : String :=
  let hs := ipv6_hextets n
  let strs := hs.map hexStr
  let run := bestZeroRun hs
  if run.2 > 1 then
    let start := run.1.toNat
    let before := strs.take start
    let after := strs.drop (start + run.2)
    let afterPadded := if start + run.2 == 8 then after ++ [""] else after
    let parts := before ++ [""] ++ afterPadded
    let partsPadded := if start == 0 then [""] ++ parts else parts
    String.intercalate ":" partsPadded
  else
    String.intercalate ":" strs

/-- Model of `IPv6._from_row_binary`: 16 bytes big-endian; the source tests
`int_value & 0xFFFF00000000 == 0xFFFF00000000` (only bits 32..47!) and in
that case renders the low 32 bits as an IPv4 dotted quad; otherwise it
renders the value as IPv6 text. -/
def ipv6_from_row_binary (source : List Nat) (loc : Nat) : String × Nat :=
  let int_value := natFromBytesBE ((source.drop loc).take 16)
  if int_value &&& 0xFFFF00000000 == 0xFFFF00000000 then
    (ipv4_addr_string (int_value &&& 0xFFFFFFFF), loc + 16)
  else
    (ipv6_addr_string int_value, loc + 16)

/-! ## Helper lemmas -/

theorem natToBytesLE_length (n v : Nat) : (natToBytesLE n v).length = n := by
  induction n generalizing v with
  | zero => rfl
  | succ n ih => simp [natToBytesLE, ih]

theorem natFromBytesLE_natToBytesLE (n v : Nat) (h : v < 2 ^ (8 * n)) :
    natFromBytesLE (natToBytesLE n v) = v := by
  induction n generalizing v with
  | zero =>
    simp only [natToBytesLE, natFromBytesLE]
    omega
  | succ n ih =>
    simp only [natToBytesLE, natFromBytesLE]
    rw [ih (v / 256) ?_]
    · omega
    · have hsplit : 2 ^ (8 * (n + 1)) = 2 ^ (8 * n) * 256 := by
        rw [show 8 * (n + 1) = 8 * n + 8 by ring, pow_add]
        norm_num
      rw [Nat.div_lt_iff_lt_mul (by norm_num : 0 < 256)]
      omega

theorem int_from_bytes_le_round (size : Nat) (signed : Bool) (v : Int)
    (hs : 1 ≤ size) (h : intRepresentable size signed v = true) :
    int_from_bytes_le signed
      (natToBytesLE size ((v % ((2 : Int) ^ (8 * size))).toNat)) = v := by
  cases signed with
  | false =>
    simp only [intRepresentable, Bool.false_eq_true, if_false, Bool.and_eq_true,
      decide_eq_true_eq] at h
    have hmod : v % (2 : Int) ^ (8 * size) = v := Int.emod_eq_of_lt h.1 h.2
    have hucast : ((v % (2 : Int) ^ (8 * size)).toNat : Int) = v := by
      rw [hmod]
      exact Int.toNat_of_nonneg h.1
    have huM : (v % (2 : Int) ^ (8 * size)).toNat < 2 ^ (8 * size) := by
      have hc : ((v % (2 : Int) ^ (8 * size)).toNat : Int)
          < (((2 : Nat) ^ (8 * size) : Nat) : Int) := by
        rw [hucast]
        push_cast
        exact h.2
      exact_mod_cast hc
    simp only [int_from_bytes_le, natToBytesLE_length,
      natFromBytesLE_natToBytesLE size _ huM, Bool.false_and, Bool.false_eq_true,
      if_false]
    exact hucast
  | true =>
    simp only [intRepresentable, if_true, Bool.and_eq_true, decide_eq_true_eq] at h
    obtain ⟨h1, h2⟩ := h
    set H : Int := 2 ^ (8 * size - 1) with hH
    have hHpos : 0 < H := by positivity
    have hm2 : (2 : Int) ^ (8 * size) = 2 * H := by
      rw [hH]
      conv_lhs => rw [show 8 * size = (8 * size - 1) + 1 by omega]
      rw [pow_succ]
      ring
    have hmod : v % (2 : Int) ^ (8 * size) = if 0 ≤ v then v else v + 2 * H := by
      by_cases hv : 0 ≤ v
      · rw [if_pos hv]
        exact Int.emod_eq_of_lt hv (by rw [hm2]; linarith)
      · rw [if_neg hv]
        have h1' : (v + (2 : Int) ^ (8 * size) * 1) % (2 : Int) ^ (8 * size)
            = v % (2 : Int) ^ (8 * size) := by
          rw [Int.add_mul_emod_self_left]
        have h2' : (v + (2 : Int) ^ (8 * size) * 1) % (2 : Int) ^ (8 * size)
            = v + 2 * H := by
          rw [mul_one, hm2]
          exact Int.emod_eq_of_lt (by linarith) (by linarith)
        rw [← h1', h2']
    have hmod_nonneg : 0 ≤ v % (2 : Int) ^ (8 * size) := by
      rw [hmod]
      by_cases hv : 0 ≤ v
      · rw [if_pos hv]
        exact hv
      · rw [if_neg hv]
        linarith
    have hucast : ((v % (2 : Int) ^ (8 * size)).toNat : Int)
        = v % (2 : Int) ^ (8 * size) := Int.toNat_of_nonneg hmod_nonneg
    have huM : (v % (2 : Int) ^ (8 * size)).toNat < 2 ^ (8 * size) := by
      have hc : ((v % (2 : Int) ^ (8 * size)).toNat : Int)
          < (((2 : Nat) ^ (8 * size) : Nat) : Int) := by
        rw [hucast]
        push_cast
        exact Int.emod_lt_of_pos v (by positivity)
      exact_mod_cast hc
    simp only [int_from_bytes_le, natToBytesLE_length,
      natFromBytesLE_natToBytesLE size _ huM, Bool.true_and]
    by_cases hv : 0 ≤ v
    · have hcond : ¬ (2 ^ (8 * size) ≤ 2 * (v % (2 : Int) ^ (8 * size)).toNat) := by
        intro hc
        have hci : (((2 : Nat) ^ (8 * size) : Nat) : Int)
            ≤ 2 * ((v % (2 : Int) ^ (8 * size)).toNat : Int) := by
          exact_mod_cast hc
        rw [hucast, hmod, if_pos hv] at hci
        push_cast at hci
        rw [hm2] at hci
        linarith
      rw [if_neg (by simpa using hcond), hucast, hmod, if_pos hv]
    · have hcond : 2 ^ (8 * size) ≤ 2 * (v % (2 : Int) ^ (8 * size)).toNat := by
        have hc : (((2 : Nat) ^ (8 * size) : Nat) : Int)
            ≤ 2 * ((v % (2 : Int) ^ (8 * size)).toNat : Int) := by
          rw [hucast, hmod, if_neg hv]
          push_cast
          rw [hm2]
          linarith
        exact_mod_cast hc
      rw [if_pos (by simpa using hcond), hucast, hmod, if_neg hv, hm2]
      ring

/-! ## Claim theorems -/

/-- Claim C1: the 64-bit unsigned codec decodes FF FF FF FF FF FF FF FF to
18446744073709551615 under the default (unsigned) global policy, and after
`uint64_handling('signed')` the same bytes decode, through the same
(stateless) codec, to -1: the policy is read from the class attribute at
decode time, not at construction time. -/
theorem uint64_policy_switch_decode :
    uint64_from_row_binary uint64_signed_default
        [255, 255, 255, 255, 255, 255, 255, 255] 0 = (18446744073709551615, 8)
    ∧ uint64_from_row_binary (uint64_handling "signed")
        [255, 255, 255, 255, 255, 255, 255, 255] 0 = (-1, 8) := by
  constructor <;> decide

/-- Claim C2 (code bug exhibit): `Decimal._from_row_binary` reads the
integer UNSIGNED and tests `unscaled <= 0`, so for a Decimal of byte width
4 and scale 2 the all-zero buffer decodes to the literal "-.0" (a negative
zero, with a leading '-'), and the two's-complement encoding of -1 decodes
to "42949672.95" instead of "-0.01". -/
theorem decimal_decode_unsigned_and_negative_zero :
    decimal_from_row_binary { size := 4, prec := 2 } [0, 0, 0, 0] 0 = ("-.0", 4)
    ∧ decimal_from_row_binary { size := 4, prec := 2 } [255, 255, 255, 255] 0
        = ("42949672.95", 4) := by
  constructor <;> decide

/-- Claim C3 (counterexample): a buffer one byte shorter than the codec
width does not fail — the 4-byte integer codec on the 3-byte buffer
[1, 0, 0] returns the value 1 and still advances the offset to 4. -/
theorem int_decode_short_buffer_returns_value :
    int_from_row_binary 4 false [1, 0, 0] 0 = (1, 4) := by
  decide

/-- Claim C3 (amended): no `BufferUnderrun` exists; when
`offset + width > len(buffer)` the integer and fixed-string codecs
silently truncate — the Python slice yields the bytes that remain, the
value is computed from them, and the returned offset still advances by
the full width (past the end of the buffer). -/
theorem decode_short_buffer_truncates (size : Nat) (signed : Bool)
    (source : List Nat) (loc : Nat) (st : FixedStringState)
    (h : source.length < loc + size) :
    int_from_row_binary size signed source loc
      = (int_from_bytes_le signed (source.drop loc), loc + size)
    ∧ fixed_string_from_row_binary st size source loc
      = (fs_transform_apply st (source.drop loc), loc + size) := by
  have htake : (source.drop loc).take size = source.drop loc := by
    apply List.take_of_length_le
    rw [List.length_drop]
    omega
  constructor
  · rw [int_from_row_binary, htake]
  · rw [fixed_string_from_row_binary, htake]

theorem decode_short_buffer_truncates_witness :
    int_from_row_binary 4 false [1, 0, 0] 0
      = (int_from_bytes_le false ([1, 0, 0].drop 0), 0 + 4)
    ∧ fixed_string_from_row_binary defaultFixedStringState 4 [1, 0, 0] 0
      = (fs_transform_apply defaultFixedStringState ([1, 0, 0].drop 0), 0 + 4) :=
  decode_short_buffer_truncates 4 false [1, 0, 0] 0 defaultFixedStringState
    (by decide)

/-- Claim C9 (code bug exhibit): `Float32._to_row_binary` and
`Float64._to_row_binary` pass the 1-tuple `(value,)` to `struct.pack`,
which requires a scalar number, so every encode raises `struct.error`
instead of appending the 4- or 8-byte IEEE-754 serialization. -/
theorem float_encode_always_raises (valueBits : Nat) (dest : List Nat) :
    float32_to_row_binary valueBits dest
        = Except.error "struct.error: required argument is not a float"
    ∧ float64_to_row_binary valueBits dest
        = Except.error "struct.error: required argument is not a float" :=
  ⟨rfl, rfl⟩

/-- Claim C10: `uint64_handling(m)` selects signed mode exactly when `m`
equals "signed" case-insensitively (`pyLower m = pyLower "signed"`); any
other string yields unsigned mode, and being a total function the setter
never fails or reports an unrecognized mode. -/
theorem uint64_handling_case_insensitive (m : String) :
    uint64_handling m = true ↔ pyLower m = pyLower "signed" := by
  have h : pyLower "signed" = "signed" := by decide
  rw [h]
  show (pyLower m == "signed") = true ↔ pyLower m = "signed"
  exact beq_iff_eq

/-- Claim C5: for every fixed-width integer codec variant — any byte width
of at least one, signed or unsigned, which covers the Int/UInt family and
both signedness states of the policy-driven UInt64 — and every value
representable in that width and signedness, encoding into a buffer and
then decoding at the starting offset of the appended bytes returns
exactly the value, with the offset advanced by the width. -/
theorem int_codec_round_trip (size : Nat) (signed : Bool) (v : Int)
    (dest : List Nat) (hsize : 1 ≤ size)
    (h : intRepresentable size signed v = true) :
    ∃ out, int_to_row_binary size signed v dest = Except.ok out
      ∧ int_from_row_binary size signed out dest.length
          = (v, dest.length + size) := by
  refine ⟨dest ++ natToBytesLE size ((v % ((2 : Int) ^ (8 * size))).toNat), ?_, ?_⟩
  · rw [int_to_row_binary, intToBytesLE, if_pos h]
    rfl
  · rw [int_from_row_binary, List.drop_left,
      List.take_of_length_le (le_of_eq (natToBytesLE_length size _)),
      int_from_bytes_le_round size signed v hsize h]

theorem int_codec_round_trip_witness :
    ∃ out, int_to_row_binary 1 true (-1) [] = Except.ok out
      ∧ int_from_row_binary 1 true out (List.length ([] : List Nat))
          = (-1, List.length ([] : List Nat) + 1) :=
  int_codec_round_trip 1 true (-1) [] (by decide) (by decide)

/-- Claim C6: when the TypeDef does not fix a width, Decimal construction
succeeds exactly for precision in [1, 79] — otherwise it raises (the
ArithmeticError realizing the spec's InvalidTypeParameters) — and the
backing width is 32 bits for precision below 10, 64 below 19, 128 below
39, and 256 otherwise; when the TypeDef fixes a width, construction never
fails on precision. -/
theorem decimal_init_prec_check (td : TypeDef) (prec scale : Nat)
    (rest : List TDValue)
    (hv : td.values = TDValue.num prec :: TDValue.num scale :: rest) :
    (td.size = 0 →
      ((∃ c, decimal_init td = Except.ok c) ↔ 1 ≤ prec ∧ prec ≤ 79))
    ∧ (td.size = 0 → (prec < 1 ∨ prec > 79) →
        decimal_init td
          = Except.error "ArithmeticError: Invalid precision for ClickHouse Decimal type")
    ∧ (td.size = 0 → 1 ≤ prec → prec ≤ 79 →
        ∃ c, decimal_init td = Except.ok c
          ∧ 8 * c.size = (if prec < 10 then 32 else if prec < 19 then 64
              else if prec < 39 then 128 else 256))
    ∧ (td.size ≠ 0 → ∃ c, decimal_init td = Except.ok c) := by
  refine ⟨?_, ?_, ?_, ?_⟩
  · intro hsz
    rw [decimal_init, hv, if_pos (by simp [hsz])]
    dsimp only
    by_cases hpr : (decide (prec < 1) || decide (prec > 79)) = true
    · rw [if_pos hpr]
      simp only [Bool.or_eq_true, decide_eq_true_eq] at hpr
      constructor
      · rintro ⟨c, hc⟩
        cases hc
      · intro hb
        omega
    · rw [if_neg hpr]
      simp only [Bool.or_eq_true, decide_eq_true_eq, not_or, not_lt, not_le] at hpr
      exact ⟨fun _ => ⟨by omega, by omega⟩, fun _ => ⟨_, rfl⟩⟩
  · intro hsz hpr
    rw [decimal_init, hv, if_pos (by simp [hsz])]
    dsimp only
    rw [if_pos (by simp only [Bool.or_eq_true, decide_eq_true_eq]; omega)]
  · intro hsz h1 h79
    rw [decimal_init, hv, if_pos (by simp [hsz])]
    dsimp only
    rw [if_neg (by simp only [Bool.or_eq_true, decide_eq_true_eq]; omega)]
    refine ⟨_, rfl, ?_⟩
    by_cases ha : prec < 10
    · simp [ha]
    · by_cases hb : prec < 19
      · simp [ha, hb]
      · by_cases hc : prec < 39
        · simp [ha, hb, hc]
        · simp [ha, hb, hc]
  · intro hsz
    rw [decimal_init, hv, if_neg (by simpa using hsz)]
    dsimp only
    exact ⟨_, rfl⟩

theorem decimal_init_prec_check_witness :
    ((0 = 0 →
      ((∃ c, decimal_init { size := 0, values := [TDValue.num 5, TDValue.num 2], arg_str := "" }
          = Except.ok c) ↔ 1 ≤ 5 ∧ 5 ≤ 79))
    ∧ (0 = 0 → (5 < 1 ∨ 5 > 79) →
        decimal_init { size := 0, values := [TDValue.num 5, TDValue.num 2], arg_str := "" }
          = Except.error "ArithmeticError: Invalid precision for ClickHouse Decimal type")
    ∧ (0 = 0 → 1 ≤ 5 → 5 ≤ 79 →
        ∃ c, decimal_init { size := 0, values := [TDValue.num 5, TDValue.num 2], arg_str := "" }
            = Except.ok c
          ∧ 8 * c.size = (if 5 < 10 then 32 else if 5 < 19 then 64
              else if 5 < 39 then 128 else 256))
    ∧ ((0 : Nat) ≠ 0 → ∃ c,
        decimal_init { size := 0, values := [TDValue.num 5, TDValue.num 2], arg_str := "" }
          = Except.ok c)) :=
  decimal_init_prec_check
    { size := 0, values := [TDValue.num 5, TDValue.num 2], arg_str := "" } 5 2 [] rfl

/-- Claim C7 (code bug exhibit): under the decode policy with
`on_invalid=hex`, a byte slice that is invalid in the configured utf8
encoding does fall back to the hex rendering (the `_encode_error`
classmethod binds `cls` correctly); but the claimed equality with direct
hex mode cannot hold, because direct hex mode itself raises TypeError for
EVERY input — the stored `staticmethod(_hex_string)` passes the single
argument to the two-parameter function — and so returns no text at all;
and under the placeholder option the fallback call likewise raises
TypeError (the stored lambda accepts only `cls` yet is invoked with the
value as well), so that error is propagated instead of recovered as the
fixed placeholder string. -/
theorem fixed_string_invalid_fallback :
    (∀ v : List Nat, utf8Decode v = none →
      fs_transform_apply
          (fixed_string_handling "decode" "utf8" "hex" defaultFixedStringState) v
        = Except.ok (FSValue.text (hexlify v)))
    ∧ (∀ v : List Nat,
      fs_transform_apply
          (fixed_string_handling "hex" "utf8" "hex" defaultFixedStringState) v
        = Except.error
            "TypeError: _hex_string missing 1 required positional argument: value")
    ∧ fs_transform_apply
        (fixed_string_handling "decode" "utf8" "placeholder" defaultFixedStringState)
        [255]
      = Except.error "TypeError: lambda takes 1 positional argument but 2 were given" := by
  refine ⟨?_, ?_, rfl⟩
  · intro v hv
    simp [fixed_string_handling, fs_transform_apply, codecDecode,
      defaultFixedStringState, hv, fs_encode_error_apply]
  · intro v
    rfl

theorem fixed_string_invalid_fallback_witness :
    fs_transform_apply
        (fixed_string_handling "decode" "utf8" "hex" defaultFixedStringState) [255]
      = Except.ok (FSValue.text "ff") :=
  fixed_string_invalid_fallback.1 [255] rfl

/-- Claim C8: a DateTime64 codec of scale `s` decodes the 8-byte
little-endian signed tick value 0 to exactly the epoch instant in its
configured timezone, and tick value `10^s` to exactly epoch plus one
second; moreover on every buffer the decoded instant equals
`(ticks * 10^6) fdiv 10^s` microseconds, i.e. seconds come from floor
division of the ticks (flooring also for negative ticks) with the
remainder converted to microseconds. -/
theorem datetime64_decode_epoch_and_second (s : Nat) (tzv : Option String)
    (hsc : s ≤ 18) :
    datetime64_from_row_binary (datetime64_init s tzv) (natToBytesLE 8 0) 0
        = ({ us := 0, tz := (datetime64_init s tzv).tzinfo }, 8)
    ∧ datetime64_from_row_binary (datetime64_init s tzv) (natToBytesLE 8 (10 ^ s)) 0
        = ({ us := 1000000, tz := (datetime64_init s tzv).tzinfo }, 8)
    ∧ ∀ (source : List Nat) (loc : Nat),
        (datetime64_from_row_binary (datetime64_init s tzv) source loc).1.us
          = Int.fdiv
              (int_from_bytes_le true ((source.drop loc).take 8) * 1000000)
              (((10 : Nat) ^ s : Nat) : Int) := by
  have hprec : (datetime64_init s tzv).prec = 10 ^ s := rfl
  have hppos : (0 : Int) < (((10 : Nat) ^ s : Nat) : Int) := by positivity
  have hfloor : ∀ t : Int,
      Int.fdiv t (((10 : Nat) ^ s : Nat) : Int) * 1000000
        + Int.fdiv
            ((t - Int.fdiv t (((10 : Nat) ^ s : Nat) : Int)
                * (((10 : Nat) ^ s : Nat) : Int)) * 1000000)
            (((10 : Nat) ^ s : Nat) : Int)
        = Int.fdiv (t * 1000000) (((10 : Nat) ^ s : Nat) : Int) := by
    intro t
    set p : Int := (((10 : Nat) ^ s : Nat) : Int) with hp
    rw [Int.fdiv_eq_ediv _ (le_of_lt hppos), Int.fdiv_eq_ediv _ (le_of_lt hppos),
      Int.fdiv_eq_ediv _ (le_of_lt hppos)]
    have hr : t - t / p * p = t % p := by
      rw [Int.emod_def]
      ring
    have hdecomp : t = p * (t / p) + t % p := (Int.ediv_add_emod t p).symm
    have hc : t * 1000000 = t % p * 1000000 + t / p * 1000000 * p := by
      conv_lhs => rw [hdecomp]
      ring
    rw [hr, hc, Int.add_mul_ediv_right _ _ (ne_of_gt hppos)]
    ring
  have hdecode : ∀ t : Nat, t < 2 ^ 63 →
      int_from_bytes_le true (natToBytesLE 8 t) = (t : Int) := by
    intro t ht
    have hrep : intRepresentable 8 true (t : Int) = true := by
      simp only [intRepresentable, if_true, Bool.and_eq_true, decide_eq_true_eq]
      constructor
      · exact le_trans (by norm_num) (Int.natCast_nonneg t)
      · show (t : Int) < 2 ^ (8 * 8 - 1)
        exact_mod_cast ht
    have harg : (((t : Int) % ((2 : Int) ^ (8 * 8))).toNat) = t := by
      rw [Int.emod_eq_of_lt (by positivity) ?hlt]
      · exact Int.toNat_natCast t
      · show (t : Int) < 2 ^ (8 * 8)
        have h2 : t < 2 ^ 64 := lt_trans ht (by norm_num)
        exact_mod_cast h2
    have h := int_from_bytes_le_round 8 true (t : Int) (by norm_num) hrep
    rw [harg] at h
    exact h
  have h10 : 10 ^ s < 2 ^ 63 := by
    calc 10 ^ s ≤ 10 ^ 18 := Nat.pow_le_pow_right (by norm_num) hsc
    _ < 2 ^ 63 := by norm_num
  refine ⟨?_, ?_, ?_⟩
  · simp only [datetime64_from_row_binary, List.drop_zero, hprec,
      List.take_of_length_le (le_of_eq (natToBytesLE_length 8 0)),
      hdecode 0 (by norm_num)]
    simp [Int.zero_fdiv]
  · simp only [datetime64_from_row_binary, List.drop_zero, hprec,
      List.take_of_length_le (le_of_eq (natToBytesLE_length 8 (10 ^ s))),
      hdecode (10 ^ s) h10]
    have hself : Int.fdiv (((10 : Nat) ^ s : Nat) : Int) (((10 : Nat) ^ s : Nat) : Int)
        = 1 := by
      rw [Int.fdiv_eq_ediv _ (le_of_lt hppos)]
      exact Int.ediv_self (ne_of_gt hppos)
    rw [hself]
    simp [Int.zero_fdiv]
  · intro source loc
    simp only [datetime64_from_row_binary, hprec]
    exact hfloor _

theorem datetime64_decode_epoch_and_second_witness :
    datetime64_from_row_binary (datetime64_init 0 none) (natToBytesLE 8 (10 ^ 0)) 0
      = ({ us := 1000000, tz := (datetime64_init 0 none).tzinfo }, 8) :=
  (datetime64_decode_epoch_and_second 0 none (by decide)).2.1

theorem land_hi16_mask (n : Nat) :
    n &&& 0xFFFF00000000 = 2 ^ 32 * (n / 2 ^ 32 % 2 ^ 16) := by
  apply Nat.eq_of_testBit_eq
  intro i
  have hmask : (0xFFFF00000000 : Nat) = 2 ^ 32 * (2 ^ 16 - 1) := by norm_num
  rw [hmask, ← Nat.shiftRight_eq_div_pow, Nat.testBit_and, Nat.testBit_mul_pow_two,
    Nat.testBit_mul_pow_two, Nat.testBit_mod_two_pow,
    Nat.testBit_two_pow_sub_one, Nat.testBit_shiftRight]
  by_cases h32 : 32 ≤ i
  · rw [show 32 + (i - 32) = i by omega]
    by_cases h48 : i - 32 < 16
    · simp [ge_iff_le, h32, h48]
    · simp [ge_iff_le, h32, h48]
  · simp [ge_iff_le, h32]

theorem land_lo32_mask (n : Nat) : n &&& 0xFFFFFFFF = n % 2 ^ 32 := by
  have h := Nat.and_pow_two_sub_one_eq_mod n 32
  norm_num at h ⊢
  exact h

/-- Claim C4 (counterexample): decoding the IPv4-mapped bytes
00*10 FF FF 01 02 03 04 with the IPv6 codec yields "1.2.3.4", which is
NOT what the IPv4 codec returns on the 4 bytes 01 02 03 04 (it reads them
little-endian and renders "4.3.2.1"); moreover the 16-byte input that
starts with 0x80 — whose upper 96 bits do not match the IPv4-mapped
prefix — is still rendered as an embedded IPv4 dotted quad, because the
source masks only bits 32..47. -/
theorem ipv6_mapped_claim_fails :
    (ipv6_from_row_binary [0, 0, 0, 0, 0, 0, 0, 0, 0, 0, 255, 255, 1, 2, 3, 4] 0).1
      ≠ (ipv4_from_row_binary [1, 2, 3, 4] 0).1
    ∧ (ipv6_from_row_binary [128, 0, 0, 0, 0, 0, 0, 0, 0, 0, 255, 255, 1, 2, 3, 4] 0).1
      = ipv4_addr_string 16909060 := by
  constructor <;> decide

/-- Claim C4 (amended): the IPv6 codec renders an embedded IPv4 dotted
quad if and only if bits 32..47 of the 128-bit big-endian value are all
ones — the upper 80 bits are NOT inspected — and decoding
00*10 FF FF p q r s returns the dotted quad of the big-endian low 32
bits, which equals the IPv4 codec's decoding of the REVERSED bytes
[s, r, q, p]. -/
theorem ipv6_decode_amended (source : List Nat) (loc : Nat)
    (p q r s : Nat) (hp : p < 256) (hq : q < 256) (hr : r < 256)
    (hs : s < 256) :
    ((natFromBytesBE ((source.drop loc).take 16) &&& 0xFFFF00000000
        == 0xFFFF00000000) = true
      ↔ natFromBytesBE ((source.drop loc).take 16) / 2 ^ 32 % 2 ^ 16 = 65535)
    ∧ (ipv6_from_row_binary [0, 0, 0, 0, 0, 0, 0, 0, 0, 0, 255, 255, p, q, r, s] 0).1
        = (ipv4_from_row_binary [s, r, q, p] 0).1 := by
  constructor
  · rw [beq_iff_eq, land_hi16_mask,
      show (0xFFFF00000000 : Nat) = 2 ^ 32 * 65535 by norm_num]
    constructor
    · intro he
      exact Nat.eq_of_mul_eq_mul_left (by norm_num) he
    · intro he
      rw [he]
  · have hn : natFromBytesBE
        (([0, 0, 0, 0, 0, 0, 0, 0, 0, 0, 255, 255, p, q, r, s].drop 0).take 16)
        = 65535 * 2 ^ 32 + (p * 2 ^ 24 + q * 2 ^ 16 + r * 2 ^ 8 + s) := by
      simp [natFromBytesBE, List.foldl]
      ring
    have hv : p * 2 ^ 24 + q * 2 ^ 16 + r * 2 ^ 8 + s < 2 ^ 32 := by omega
    rw [ipv6_from_row_binary, ipv4_from_row_binary]
    simp only [hn]
    rw [if_pos ?hcond]
    case hcond =>
      rw [beq_iff_eq, land_hi16_mask,
        show (0xFFFF00000000 : Nat) = 2 ^ 32 * 65535 by norm_num]
      have : (65535 * 2 ^ 32 + (p * 2 ^ 24 + q * 2 ^ 16 + r * 2 ^ 8 + s)) / 2 ^ 32
          % 2 ^ 16 = 65535 := by omega
      rw [this]
    rw [land_lo32_mask]
    have h1 : (65535 * 2 ^ 32 + (p * 2 ^ 24 + q * 2 ^ 16 + r * 2 ^ 8 + s)) % 2 ^ 32
        = p * 2 ^ 24 + q * 2 ^ 16 + r * 2 ^ 8 + s := by omega
    have h2 : natFromBytesLE (([s, r, q, p].drop 0).take 4)
        = p * 2 ^ 24 + q * 2 ^ 16 + r * 2 ^ 8 + s := by
      simp [natFromBytesLE]
      ring
    rw [h1, h2]

theorem ipv6_decode_amended_witness :
    ((natFromBytesBE ((([] : List Nat).drop 0).take 16) &&& 0xFFFF00000000
        == 0xFFFF00000000) = true
      ↔ natFromBytesBE ((([] : List Nat).drop 0).take 16) / 2 ^ 32 % 2 ^ 16 = 65535)
    ∧ (ipv6_from_row_binary [0, 0, 0, 0, 0, 0, 0, 0, 0, 0, 255, 255, 1, 2, 3, 4] 0).1
        = (ipv4_from_row_binary [4, 3, 2, 1] 0).1 :=
  ipv6_decode_amended [] 0 1 2 3 4 (by decide) (by decide) (by decide) (by decide)
